import Mathlib

/-!
Verification of the f6boll HLS clip service core.

The JavaScript source (src/mp4-clipper/server.js, final revision, and
src/api/clip.js) is embedded shallowly: JS numbers are modelled as rationals
(`ℚ`), JS strings as `String` / `List Char`, and the event-driven request
handlers as explicit step functions over small state records.  Binary-search
loops are embedded with explicit fuel (the fuel bound `b.length` is proved
sufficient below), so that every definition is executable.
-/

namespace Clipper

attribute [local semireducible] Rat.add Rat.mul Rat.sub Rat.inv

/-- JS `Math.round` on a rational: round half toward positive infinity. -/
def jsRound (q : ℚ) : ℤ := ⌊q + 1/2⌋

/-- JS `+(x).toFixed(3)`: round to three decimal places. -/
def jsToFixed3 (q : ℚ) : ℚ := (jsRound (q * 1000) : ℚ) / 1000

/-- Character class `[\d.]` of the EXTINF duration regex. -/
def isTokCh (c : Char) : Bool := c.isDigit || c == '.'

/-- Numeric value of a decimal digit block. -/
def natOfDigits (ds : List Char) : ℕ :=
  ds.foldl (fun n c => 10 * n + (c.toNat - '0'.toNat)) 0

/-- Value of a fractional digit block `fs`, that is `0.fs`. -/
def fracVal (fs : List Char) : ℚ := (natOfDigits fs : ℚ) / (10 : ℚ) ^ fs.length

/-- JS `parseFloat` restricted to tokens of digits and dots (the only shape the
EXTINF regex can capture): value of the longest numeric prefix, `none` for NaN
(token made of dots only). -/
def parseFloatTok (cs : List Char) : Option ℚ :=
  if cs.takeWhile Char.isDigit = [] then
    match cs with
    | '.' :: cs2 =>
      if cs2.takeWhile Char.isDigit = [] then none
      else some (fracVal (cs2.takeWhile Char.isDigit))
    | _ => none
  else
    match cs.dropWhile Char.isDigit with
    | '.' :: rest2 =>
      some ((natOfDigits (cs.takeWhile Char.isDigit) : ℚ) + fracVal (rest2.takeWhile Char.isDigit))
    | _ => some ((natOfDigits (cs.takeWhile Char.isDigit) : ℚ))

/-- Split a character list at every occurrence of a separator character
(JS `String.prototype.split` with a one-character separator). -/
def splitChar (sep : Char) : List Char → List (List Char)
  | [] => [[]]
  | c :: cs =>
    let r := splitChar sep cs
    if c == sep then [] :: r
    else
      match r with
      | h :: t => (c :: h) :: t
      | [] => [[c]]

/-- Drop one trailing carriage return (the `\r?` part of the `/\r?\n/` line
separator). -/
def stripCR (l : List Char) : List Char :=
  if l.getLast? = some '\r' then l.dropLast else l

/-- JS `m3u8Text.split(/\r?\n/)`, each line as a character list. -/
def jsLines (s : String) : List (List Char) := (splitChar '\n' s.data).map stripCR

/-- Model of `line.match(/^#EXTINF:([\d.]+)/)` followed by
`isFinite(dur) ? dur : 0`: `some` contribution when the line matches, `none`
otherwise.  A NaN token (dots only) contributes zero, as in the source. -/
def extinfDur (line : List Char) : Option ℚ :=
  match line with
  | '#' :: 'E' :: 'X' :: 'T' :: 'I' :: 'N' :: 'F' :: ':' :: rest =>
    if rest.takeWhile isTokCh = [] then none
    else some ((parseFloatTok (rest.takeWhile isTokCh)).getD 0)
  | _ => none

/-- Loop body of `parseBoundaries`: a matched line pushes the new running sum. -/
def pbStep (st : List ℚ × ℚ) (line : List Char) : List ℚ × ℚ :=
  match extinfDur line with
  | none => st
  | some d => (st.1 ++ [st.2 + d], st.2 + d)

/-- server.js `parseBoundaries`: cumulative segment boundaries
`[0, t1, t2, ..., total]`. -/
def parseBoundaries (text : String) : List ℚ :=
  ((jsLines text).foldl pbStep ([0], 0)).1

/-- Fuelled body of the `floorBoundary` binary-search loop
(`while (lo < hi) { mid = ⌊(lo+hi+1)/2⌋; if (b[mid] <= t) lo = mid; else hi = mid-1 }`). -/
def floorGo (b : List ℚ) (t : ℚ) : ℕ → ℕ → ℕ → ℕ
  | 0, lo, _ => lo
  | f + 1, lo, hi =>
    if lo < hi then
      if b.getD ((lo + hi + 1) / 2) 0 ≤ t then floorGo b t f ((lo + hi + 1) / 2) hi
      else floorGo b t f lo ((lo + hi + 1) / 2 - 1)
    else lo

/-- Index returned by the `floorBoundary` loop; `b.length` fuel is enough since
each iteration shrinks `hi - lo`. -/
def floorIdx (b : List ℚ) (t : ℚ) : ℕ := floorGo b t b.length 0 (b.length - 1)

/-- server.js `floorBoundary`: largest boundary `≤ t` for in-range `t`. -/
def floorBoundary (b : List ℚ) (t : ℚ) : ℚ := b.getD (floorIdx b t) 0

/-- Fuelled body of the `ceilBoundary` binary-search loop
(`while (lo < hi) { mid = ⌊(lo+hi)/2⌋; if (b[mid] >= t) hi = mid; else lo = mid+1 }`). -/
def ceilGo (b : List ℚ) (t : ℚ) : ℕ → ℕ → ℕ → ℕ
  | 0, lo, _ => lo
  | f + 1, lo, hi =>
    if lo < hi then
      if t ≤ b.getD ((lo + hi) / 2) 0 then ceilGo b t f lo ((lo + hi) / 2)
      else ceilGo b t f ((lo + hi) / 2 + 1) hi
    else lo

/-- Index returned by the `ceilBoundary` loop. -/
def ceilIdx (b : List ℚ) (t : ℚ) : ℕ := ceilGo b t b.length 0 (b.length - 1)

/-- server.js `ceilBoundary`: smallest boundary `≥ t` for in-range `t`. -/
def ceilBoundary (b : List ℚ) (t : ℚ) : ℚ := b.getD (ceilIdx b t) 0

/-- The `eSnap <= sSnap` fallback of the /clip handler: advance to the boundary
after the first occurrence of `sSnap` (JS `indexOf` yields `-1` when the value
is absent, modelled explicitly with an integer index). -/
def snapAdjust (b : List ℚ) (sSnap : ℚ) : ℚ :=
  let idx : ℤ := if sSnap ∈ b then (b.indexOf sSnap : ℤ) else -1
  b.getD (min (idx + 1) ((b.length : ℤ) - 1)).toNat 0

/-- Clamp-and-snap logic of the /clip handler (final server.js revision):
clamp the requested times into range, floor-snap the start, ceil-snap the end,
and advance the end when the window would collapse.  Returns
`(sSnap, eSnap)`. -/
def snapWindow (b : List ℚ) (start e : ℚ) : ℚ × ℚ :=
  let total := b.getLastD 0
  let sReq := max 0 (min start (max 0 (total - 1/1000)))
  let eReq := max 0 (min e total)
  let sSnap := floorBoundary b sReq
  let eSnap0 := ceilBoundary b eReq
  (sSnap, if eSnap0 ≤ sSnap then snapAdjust b sSnap else eSnap0)

/-- Clip job status enum (`starting | running | ready | done | error | canceled`). -/
inductive JStatus
  | starting | running | ready | done | error | canceled
deriving DecidableEq, Repr

/-- Job progress sub-object `{ timeMs, pct }`. -/
structure JProgress where
  timeMs : ℚ
  pct : ℤ
deriving DecidableEq, Repr

/-- Job transfer sub-object `{ bytes, totalBytes }`. -/
structure JTransfer where
  bytes : ℤ
  totalBytes : Option ℤ
deriving DecidableEq, Repr

/-- Requested window `{ start, end }` (`end` is a Lean keyword, renamed `stop`). -/
structure JWindow where
  start : ℚ
  stop : ℚ
deriving DecidableEq, Repr

/-- Snapped window `{ start, end, duration }`. -/
structure JSnapped where
  start : ℚ
  stop : ℚ
  duration : ℚ
deriving DecidableEq, Repr

/-- One entry of the `jobs` map. -/
structure Job where
  status : JStatus
  error : List Char
  requested : JWindow
  snapped : JSnapped
  progress : JProgress
  transfer : JTransfer
deriving DecidableEq, Repr

/-- Partial update of the progress sub-object. -/
structure ProgressPatch where
  timeMs : Option ℚ := none
  pct : Option ℤ := none

/-- Partial update of the transfer sub-object. -/
structure TransferPatch where
  bytes : Option ℤ := none
  totalBytes : Option (Option ℤ) := none

/-- Argument of `patchJob`: absent fields leave the job unchanged.  All call
sites in the source pass `requested` / `snapped` as whole objects, so those are
modelled as whole-value replacements. -/
structure JobPatch where
  status : Option JStatus := none
  error : Option (List Char) := none
  requested : Option JWindow := none
  snapped : Option JSnapped := none
  progress : Option ProgressPatch := none
  transfer : Option TransferPatch := none

/-- server.js `patchJob`: spread-merge the patch over the current job, with the
nested `progress` / `transfer` objects merged fieldwise. -/
def patchJob (cur : Job) (p : JobPatch) : Job :=
  { status := p.status.getD cur.status
    error := p.error.getD cur.error
    requested := p.requested.getD cur.requested
    snapped := p.snapped.getD cur.snapped
    progress :=
      match p.progress with
      | none => cur.progress
      | some pp =>
        { timeMs := pp.timeMs.getD cur.progress.timeMs
          pct := pp.pct.getD cur.progress.pct }
    transfer :=
      match p.transfer with
      | none => cur.transfer
      | some tp =>
        { bytes := tp.bytes.getD cur.transfer.bytes
          totalBytes := tp.totalBytes.getD cur.transfer.totalBytes } }

/-- server.js `endJob`: set the final status; `pct` becomes `100` when the
status is `done` and keeps its current value otherwise. -/
def endJob (cur : Job) (status : JStatus) (err : List Char) : Job :=
  patchJob cur
    { status := some status
      error := some err
      progress := some { timeMs := some cur.progress.timeMs
                         pct := some (if status = JStatus.done then 100 else cur.progress.pct) } }

/-- Strict JS `Number(...)` on an all-consumed decimal string (no exponent,
which the progress feed never produces); `none` stands for NaN. -/
def parseUnsigned (cs : List Char) : Option ℚ :=
  if cs.takeWhile Char.isDigit = [] then
    match cs with
    | '.' :: cs2 =>
      if cs2 ≠ [] ∧ cs2.dropWhile Char.isDigit = [] then some (fracVal cs2) else none
    | _ => none
  else
    match cs.dropWhile Char.isDigit with
    | [] => some ((natOfDigits (cs.takeWhile Char.isDigit) : ℚ))
    | '.' :: rest2 =>
      if rest2.dropWhile Char.isDigit = [] then
        some ((natOfDigits (cs.takeWhile Char.isDigit) : ℚ) + fracVal rest2)
      else none
    | _ => none

/-- JS `Number(val) || 0`: NaN, the empty string and zero all collapse to 0. -/
def jsNumberOr0 (val : List Char) : ℚ :=
  match val with
  | [] => 0
  | '-' :: cs => ((parseUnsigned cs).map Neg.neg).getD 0
  | '+' :: cs => (parseUnsigned cs).getD 0
  | cs => (parseUnsigned cs).getD 0

/-- Kinds of progress-feed lines the stderr handler reacts to. -/
inductive ProgEv
  | ms (v : ℚ)
  | endMark
  | other
deriving DecidableEq

/-- Whether a progress event is an `out_time_ms` sample. -/
def ProgEv.isMs : ProgEv → Bool
  | ProgEv.ms _ => true
  | _ => false

/-- `line.split("=")` kept only when it has exactly two components. -/
def lineKV (line : List Char) : Option (List Char × List Char) :=
  match splitChar '=' line with
  | [k, v] => some (k, v)
  | _ => none

/-- Classification of one progress line by the stderr handler. -/
def progEvOf (line : List Char) : ProgEv :=
  match lineKV line with
  | some (k, v) =>
    if k = "out_time_ms".data then ProgEv.ms (jsNumberOr0 v)
    else if k = "progress".data ∧ v = "end".data then ProgEv.endMark
    else ProgEv.other
  | none => ProgEv.other

/-- The pct formula of the `out_time_ms` branch:
`Math.max(0, Math.min(99, Math.round((ms / (dur * 1000)) * 100)))`. -/
def clampPct (dur ms : ℚ) : ℤ := max 0 (min 99 (jsRound (ms / (dur * 1000) * 100)))

/-- stderr progress handler applied to one complete line. -/
def feedLine (dur : ℚ) (job : Job) (line : List Char) : Job :=
  match progEvOf line with
  | ProgEv.ms v =>
    patchJob job { progress := some { timeMs := some v, pct := some (clampPct dur v) } }
  | ProgEv.endMark => patchJob job { progress := some { pct := some 100 } }
  | ProgEv.other => job

/-- Well-formed progress feed starting from last sample `lastMs`: the
`out_time_ms` values are non-decreasing and none occurs after `progress=end`
(which is how ffmpeg actually emits the feed). -/
def goodFeed : ℚ → List ProgEv → Bool
  | _, [] => true
  | lastMs, ProgEv.ms v :: rest => decide (lastMs ≤ v) && goodFeed v rest
  | _, ProgEv.endMark :: rest => rest.all (fun e => !e.isMs)
  | lastMs, ProgEv.other :: rest => goodFeed lastMs rest

/-- Job as initialised by the /clip handler right before spawning ffmpeg
(`status: "running"`, `progress: { timeMs: 0, pct: 0 }`); the windows are left
zeroed since no claim inspects them. -/
def job0 : Job :=
  { status := JStatus.running
    error := []
    requested := { start := 0, stop := 0 }
    snapped := { start := 0, stop := 0, duration := 0 }
    progress := { timeMs := 0, pct := 0 }
    transfer := { bytes := 0, totalBytes := none } }

/-- Whitespace for JS `String.prototype.trim`. -/
def isWs (c : Char) : Bool := c == ' ' || c == '\t' || c == '\n' || c == '\r'

/-- JS `trim()`. -/
def trimWs (l : List Char) : List Char :=
  ((l.dropWhile isWs).reverse.dropWhile isWs).reverse

/-- Split buffered stderr text into its complete (trimmed) lines and the
unterminated remainder, as the `progBuf` loop does. -/
def drainLines (buf : List Char) : List (List Char) × List Char :=
  let parts := splitChar '\n' buf
  (parts.dropLast.map trimWs, parts.getLastD [])

/-- Mutable locals of one piping-mode /clip request after the spawn. -/
structure Sess where
  job : Job
  hadData : Bool
  sentHeaders : Bool
  errLog : List Char
  progBuf : List Char

/-- Events delivered to the handlers wired around the ffmpeg child process. -/
inductive SEv
  | aborted
  | stdoutData (n : ℤ)
  | stderrData (s : List Char)
  | exited (codeExit : Option ℤ) (signal : Option (List Char))
  | spawnFailed (msg : List Char)

/-- One event of the piping-mode /clip session (final server.js revision):
`req.on("aborted")` kills ffmpeg and ends the job `canceled`; the first stdout
chunk sets `hadData` / `sentHeaders`; stderr chunks feed the progress parser;
`ff.on("exit")` ends the job `error` when nothing was produced and `done`
otherwise; `ff.on("error")` ends it `error`. -/
def sessStep (dur : ℚ) (st : Sess) : SEv → Sess
  | SEv.aborted => { st with job := endJob st.job JStatus.canceled [] }
  | SEv.stdoutData n =>
    let j := patchJob st.job { transfer := some { bytes := some (st.job.transfer.bytes + n) } }
    if st.hadData then { st with job := j }
    else { st with job := j, hadData := true, sentHeaders := true }
  | SEv.stderrData s =>
    let buf := st.progBuf ++ s
    let pr := drainLines buf
    { st with errLog := st.errLog ++ s
              progBuf := pr.2
              job := pr.1.foldl (feedLine dur) st.job }
  | SEv.exited _c _sig =>
    if !st.hadData && !st.sentHeaders then
      let t := trimWs st.errLog
      let msg := (if t = [] then "ffmpeg exited.".data else t).take 1800
      { st with job := endJob st.job JStatus.error msg }
    else { st with job := endJob st.job JStatus.done [] }
  | SEv.spawnFailed m => { st with job := endJob st.job JStatus.error m }

/-- Session state right after the spawn. -/
def sess0 : Sess :=
  { job := job0, hadData := false, sentHeaders := false, errLog := [], progBuf := [] }

/-- Run a piping-mode session over a list of events. -/
def sessRun (dur : ℚ) (evs : List SEv) : Sess := evs.foldl (sessStep dur) sess0

/-- Observable watchdog state: whether a stdout byte arrived, whether the
single-shot timer is still armed, and how many times the watchdog killed
ffmpeg. -/
structure WdState where
  hadData : Bool
  timerArmed : Bool
  watchdogKills : ℕ
deriving DecidableEq, Repr

/-- Watchdog-relevant events: the first stdout data event, and the expiry of
the armed timer. -/
inductive WdEv
  | data
  | timer
deriving DecidableEq

/-- Watchdog semantics: the stdout first-data handler sets `hadData` and clears
the single-shot timer; the timer callback (runnable only while the timer is
armed) disarms itself and kills ffmpeg only when `hadData` is still false. -/
def wdStep (st : WdState) : WdEv → WdState
  | WdEv.data => { hadData := true, timerArmed := false, watchdogKills := st.watchdogKills }
  | WdEv.timer =>
    if st.timerArmed then
      { hadData := st.hadData
        timerArmed := false
        watchdogKills := if st.hadData then st.watchdogKills else st.watchdogKills + 1 }
    else st

/-- Piping-mode initial watchdog state: timer armed, no data, no kills. -/
def wd0 : WdState := { hadData := false, timerArmed := true, watchdogKills := 0 }

/-- Run the watchdog machine over a list of events. -/
def wdRun (evs : List WdEv) : WdState := evs.foldl wdStep wd0

/-- Environment of one solid-mode (buffered) exit: how ffmpeg exited, whether
`fs.promises.stat` on the scratch file succeeds and its size, whether ffmpeg
had written the scratch file at all, and whether the fs read stream's `close`
event fires during the request.  `close` fires when the stream finishes
reading the file; when the response aborts or errors mid-send it need not
fire, because the legacy `read.pipe(res)` merely unpipes without destroying
the read stream. -/
structure SolidEnv where
  codeExit : Option ℤ
  signal : Option (List Char)
  statOk : Bool
  size : ℤ
  fileWritten : Bool
  readClosed : Bool

/-- Outcome of the solid-mode exit handler. -/
structure SolidOut where
  job : Job
  httpStatus : ℕ
  unlinkCalled : Bool
  fileAfter : Bool

/-- `wantSolid` branch of `ff.on("exit")`: on a clean exit (`codeExit === 0 &&
!signal`) with a successful stat, the job turns `ready` and the file starts
streaming with a 200; the unlink and `endJob("done")` live only inside
`read.on("close")`, so they run exactly when that close event fires — when it
does not (mid-send response abort or error, where the plain pipe only
unpipes), no unlink happens and this handler leaves the job `ready` (a
concurrent client abort separately runs `endJob("canceled")` through the
abort handler).  Every other path responds 500, ends the job `error`, and
performs no unlink, so a written scratch file stays on disk.  `fileAfter`
assumes the unlink syscall itself succeeds when called. -/
def solidExit (env : SolidEnv) (job : Job) (errLog : List Char) : SolidOut :=
  if env.codeExit = some 0 ∧ env.signal = none ∧ env.statOk = true then
    if env.readClosed = true then
      { job := endJob (patchJob job
            { status := some JStatus.ready
              transfer := some { totalBytes := some (some env.size) } }) JStatus.done []
        httpStatus := 200
        unlinkCalled := true
        fileAfter := false }
    else
      { job := patchJob job
          { status := some JStatus.ready
            transfer := some { totalBytes := some (some env.size) } }
        httpStatus := 200
        unlinkCalled := false
        fileAfter := env.fileWritten }
  else
    { job := endJob job JStatus.error
        ((if trimWs errLog = [] then "ffmpeg exited.".data else trimWs errLog).take 1800)
      httpStatus := 500
      unlinkCalled := false
      fileAfter := env.fileWritten }

/-- Stages a request can reach in the api/clip.js handler. -/
inductive ApiStage
  | badParams
  | tooLong
  | spawned
deriving DecidableEq, Repr

/-- api/clip.js validation pipeline (`MAX_LEN = 600`): empty code or
`end <= start` gives the bad-params 400, `duration > MAX_LEN` gives the
length-cap 400, and only otherwise is ffmpeg spawned. -/
def apiClipStage (code : List Char) (s e : ℚ) : ApiStage :=
  if code = [] ∨ e ≤ s then ApiStage.badParams
  else if 600 < jsToFixed3 (e - s) then ApiStage.tooLong
  else ApiStage.spawned

/-- HTTP status produced by each api/clip.js stage. -/
def apiStatus : ApiStage → ℕ
  | ApiStage.badParams => 400
  | ApiStage.tooLong => 400
  | ApiStage.spawned => 200

/-- Whether an api/clip.js stage spawns ffmpeg. -/
def apiSpawns : ApiStage → Bool
  | ApiStage.spawned => true
  | _ => false

/-- Stages a request can reach in the final server.js /clip handler. -/
inductive SrvStage
  | badParams
  | fetchFail
  | spawned (sSnap eSnap dur : ℚ)
deriving DecidableEq, Repr

/-- Final server.js /clip handler up to the spawn: parameter validation (which
has no length cap), the playlist fetch, then boundary snapping and the ffmpeg
spawn.  `fetchOk` abstracts the upstream playlist fetch result. -/
def serverClipStage (fetchOk : Bool) (manifest : String) (code : List Char) (s e : ℚ) :
    SrvStage :=
  if code = [] ∨ e ≤ s then SrvStage.badParams
  else if fetchOk = false then SrvStage.fetchFail
  else
    let b := parseBoundaries manifest
    let w := snapWindow b s e
    SrvStage.spawned w.1 w.2 (jsToFixed3 (w.2 - w.1))

/-- Whether a server /clip stage spawns ffmpeg. -/
def srvSpawns : SrvStage → Bool
  | SrvStage.spawned _ _ _ => true
  | _ => false

/-- HTTP status of the non-spawning server /clip stages (200 marks the spawning
path, whose eventual status depends on the process). -/
def srvStatus : SrvStage → ℕ
  | SrvStage.badParams => 400
  | SrvStage.fetchFail => 502
  | SrvStage.spawned _ _ _ => 200

/-- The four-segment test manifest of the spec scenarios. -/
def mani4 : String := "#EXTINF:10,\n#EXTINF:10,\n#EXTINF:10,\n#EXTINF:10,\n"

/-- Parsed durations of all matched `#EXTINF` lines of a manifest (malformed
tokens already collapsed to zero by `extinfDur`). -/
def segDurs (text : String) : List ℚ := (jsLines text).filterMap extinfDur

/-- Cumulative partial sums starting strictly after `a`. -/
def cumFrom (a : ℚ) : List ℚ → List ℚ
  | [] => []
  | d :: ds => (a + d) :: cumFrom (a + d) ds

theorem cumFrom_length (a : ℚ) (ds : List ℚ) : (cumFrom a ds).length = ds.length := by
  induction ds generalizing a with
  | nil => rfl
  | cons d ds ih => simp [cumFrom, ih]

theorem cumFrom_getLastD (a : ℚ) (ds : List ℚ) :
    (cumFrom a ds).getLastD a = a + ds.sum := by
  induction ds generalizing a with
  | nil => simp [cumFrom]
  | cons d ds ih =>
    rw [cumFrom, List.getLastD_cons, ih, List.sum_cons]
    ring

theorem cumFrom_sorted (a : ℚ) (ds : List ℚ) (h : ∀ d ∈ ds, 0 ≤ d) :
    List.Sorted (· ≤ ·) (a :: cumFrom a ds) := by
  induction ds generalizing a with
  | nil => simp [cumFrom]
  | cons d ds ih =>
    have hd : 0 ≤ d := h d (by simp)
    have htl := ih (a + d) (fun x hx => h x (by simp [hx]))
    rw [cumFrom, List.sorted_cons]
    refine ⟨?_, htl⟩
    intro b hb
    rw [List.mem_cons] at hb
    rcases hb with rfl | hb
    · linarith
    · have h2 := (List.sorted_cons.1 htl).1 b hb
      linarith

theorem fracVal_nonneg (fs : List Char) : 0 ≤ fracVal fs := by
  unfold fracVal
  positivity

theorem parseFloatTok_nonneg (cs : List Char) (q : ℚ) (h : parseFloatTok cs = some q) :
    0 ≤ q := by
  unfold parseFloatTok at h
  split at h
  · split at h
    · split at h
      · exact absurd h (by simp)
      · rw [Option.some_inj] at h
        subst h
        exact fracVal_nonneg _
    · exact absurd h (by simp)
  · split at h
    · rw [Option.some_inj] at h
      subst h
      exact add_nonneg (Nat.cast_nonneg _) (fracVal_nonneg _)
    · rw [Option.some_inj] at h
      subst h
      exact Nat.cast_nonneg _

theorem extinfDur_nonneg (line : List Char) (d : ℚ) (h : extinfDur line = some d) :
    0 ≤ d := by
  unfold extinfDur at h
  split at h
  · split at h
    · exact absurd h (by simp)
    · rw [Option.some_inj] at h
      subst h
      cases hp : parseFloatTok (List.takeWhile isTokCh _) with
      | none => simp [hp]
      | some q => simpa [hp] using parseFloatTok_nonneg _ q hp
  · exact absurd h (by simp)

theorem segDurs_nonneg (text : String) : ∀ d ∈ segDurs text, 0 ≤ d := by
  intro d hd
  rw [segDurs, List.mem_filterMap] at hd
  obtain ⟨line, _, h⟩ := hd
  exact extinfDur_nonneg line d h

theorem pb_fold_spec (lines : List (List Char)) :
    ∀ (b0 : List ℚ) (a0 : ℚ),
      lines.foldl pbStep (b0, a0)
        = (b0 ++ cumFrom a0 (lines.filterMap extinfDur),
           (cumFrom a0 (lines.filterMap extinfDur)).getLastD a0) := by
  induction lines with
  | nil => intro b0 a0; simp [cumFrom]
  | cons line rest ih =>
    intro b0 a0
    cases h : extinfDur line with
    | none =>
      simp only [List.foldl_cons, pbStep, h, List.filterMap_cons_none h]
      exact ih b0 a0
    | some d =>
      simp only [List.foldl_cons, pbStep, h, List.filterMap_cons_some h]
      rw [ih (b0 ++ [a0 + d]) (a0 + d), cumFrom, List.getLastD_cons, List.append_assoc]
      simp

theorem parseBoundaries_eq (text : String) :
    parseBoundaries text = 0 :: cumFrom 0 (segDurs text) := by
  rw [parseBoundaries, pb_fold_spec, segDurs]
  simp

theorem parseBoundaries_ne_nil (text : String) : parseBoundaries text ≠ [] := by
  rw [parseBoundaries_eq]
  simp

theorem parseBoundaries_head (text : String) : (parseBoundaries text).getD 0 0 = 0 := by
  rw [parseBoundaries_eq]
  rfl

theorem parseBoundaries_sorted (text : String) :
    List.Sorted (· ≤ ·) (parseBoundaries text) := by
  rw [parseBoundaries_eq]
  exact cumFrom_sorted 0 (segDurs text) (segDurs_nonneg text)

theorem parseBoundaries_last (text : String) :
    (parseBoundaries text).getLastD 0 = (segDurs text).sum := by
  rw [parseBoundaries_eq, List.getLastD_cons, cumFrom_getLastD, zero_add]

theorem parseBoundaries_nonneg (text : String) :
    ∀ x ∈ parseBoundaries text, 0 ≤ x := by
  intro x hx
  have hs := parseBoundaries_sorted text
  rw [parseBoundaries_eq] at hs hx
  rw [List.sorted_cons] at hs
  rcases List.mem_cons.1 hx with rfl | hx
  · exact le_refl 0
  · exact hs.1 x hx

theorem floorGo_bounds (b : List ℚ) (t : ℚ) :
    ∀ (f lo hi : ℕ), lo ≤ hi → lo ≤ floorGo b t f lo hi ∧ floorGo b t f lo hi ≤ hi := by
  intro f
  induction f with
  | zero => intro lo hi h; exact ⟨le_refl _, h⟩
  | succ f ih =>
    intro lo hi h
    simp only [floorGo]
    split
    · split
      · obtain ⟨h1, h2⟩ := ih ((lo + hi + 1) / 2) hi (by omega)
        exact ⟨by omega, h2⟩
      · obtain ⟨h1, h2⟩ := ih lo ((lo + hi + 1) / 2 - 1) (by omega)
        exact ⟨h1, by omega⟩
    · exact ⟨le_refl _, h⟩

theorem floorGo_val_le (b : List ℚ) (t : ℚ) :
    ∀ (f lo hi : ℕ), b.getD lo 0 ≤ t → b.getD (floorGo b t f lo hi) 0 ≤ t := by
  intro f
  induction f with
  | zero => intro lo hi h; exact h
  | succ f ih =>
    intro lo hi h
    simp only [floorGo]
    split
    · split
      · next hmid => exact ih _ _ hmid
      · exact ih _ _ h
    · exact h

theorem ceilGo_bounds (b : List ℚ) (t : ℚ) :
    ∀ (f lo hi : ℕ), lo ≤ hi → lo ≤ ceilGo b t f lo hi ∧ ceilGo b t f lo hi ≤ hi := by
  intro f
  induction f with
  | zero => intro lo hi h; exact ⟨le_refl _, h⟩
  | succ f ih =>
    intro lo hi h
    simp only [ceilGo]
    split
    · split
      · obtain ⟨h1, h2⟩ := ih lo ((lo + hi) / 2) (by omega)
        exact ⟨h1, by omega⟩
      · obtain ⟨h1, h2⟩ := ih ((lo + hi) / 2 + 1) hi (by omega)
        exact ⟨by omega, h2⟩
    · exact ⟨le_refl _, h⟩

theorem ceilGo_val_ge (b : List ℚ) (t : ℚ) :
    ∀ (f lo hi : ℕ), hi - lo ≤ f → lo ≤ hi → t ≤ b.getD hi 0 →
      t ≤ b.getD (ceilGo b t f lo hi) 0 := by
  intro f
  induction f with
  | zero =>
    intro lo hi hf hlh ht
    have hlo : lo = hi := by omega
    subst hlo
    exact ht
  | succ f ih =>
    intro lo hi hf hlh ht
    simp only [ceilGo]
    split
    · split
      · next hmid => exact ih _ _ (by omega) (by omega) hmid
      · exact ih _ _ (by omega) (by omega) ht
    · next hnlt =>
      have hlo : lo = hi := by omega
      subst hlo
      exact ht

theorem floorGo_fuel (b : List ℚ) (t : ℚ) :
    ∀ (f g lo hi : ℕ), hi - lo ≤ f → f ≤ g →
      floorGo b t f lo hi = floorGo b t g lo hi := by
  intro f
  induction f with
  | zero =>
    intro g lo hi hf _
    have hle : ¬ lo < hi := by omega
    cases g with
    | zero => rfl
    | succ g =>
      simp only [floorGo]
      rw [if_neg hle]
  | succ f ih =>
    intro g lo hi hf hg
    cases g with
    | zero => omega
    | succ g =>
      simp only [floorGo]
      split
      · split
        · exact ih g _ _ (by omega) (by omega)
        · exact ih g _ _ (by omega) (by omega)
      · rfl

theorem ceilGo_fuel (b : List ℚ) (t : ℚ) :
    ∀ (f g lo hi : ℕ), hi - lo ≤ f → f ≤ g →
      ceilGo b t f lo hi = ceilGo b t g lo hi := by
  intro f
  induction f with
  | zero =>
    intro g lo hi hf _
    have hle : ¬ lo < hi := by omega
    cases g with
    | zero => rfl
    | succ g =>
      simp only [ceilGo]
      rw [if_neg hle]
  | succ f ih =>
    intro g lo hi hf hg
    cases g with
    | zero => omega
    | succ g =>
      simp only [ceilGo]
      split
      · split
        · exact ih g _ _ (by omega) (by omega)
        · exact ih g _ _ (by omega) (by omega)
      · rfl

theorem floorGo_stays (b : List ℚ) (t : ℚ) :
    ∀ (f lo hi : ℕ), (∀ j, lo < j → j ≤ hi → ¬ b.getD j 0 ≤ t) →
      floorGo b t f lo hi = lo := by
  intro f
  induction f with
  | zero => intro lo hi _; rfl
  | succ f ih =>
    intro lo hi hj
    simp only [floorGo]
    split
    · next hlt =>
      rw [if_neg (hj _ (by omega) (by omega))]
      exact ih _ _ (fun j h1 h2 => hj j h1 (by omega))
    · rfl

theorem ceilGo_climbs (b : List ℚ) (t : ℚ) :
    ∀ (f lo hi : ℕ), hi - lo ≤ f → lo ≤ hi →
      (∀ j, lo ≤ j → j < hi → ¬ t ≤ b.getD j 0) → ceilGo b t f lo hi = hi := by
  intro f
  induction f with
  | zero =>
    intro lo hi hf hlh _
    show lo = hi
    omega
  | succ f ih =>
    intro lo hi hf hlh hj
    simp only [ceilGo]
    split
    · next hlt =>
      rw [if_neg (hj _ (by omega) (by omega))]
      exact ih _ _ (by omega) (by omega) (fun j h1 h2 => hj j (by omega) h2)
    · next hnlt =>
      show lo = hi
      omega

theorem getD_eq_getElem_of_lt (b : List ℚ) (i : ℕ) (h : i < b.length) :
    b.getD i 0 = b[i] := by
  simp only [List.getD_eq_getElem?_getD, List.getElem?_eq_getElem h, Option.getD_some]

theorem getD_mem_of_lt (b : List ℚ) (i : ℕ) (h : i < b.length) : b.getD i 0 ∈ b := by
  rw [getD_eq_getElem_of_lt b i h]
  exact List.getElem_mem h

theorem length_pos_of_ne_nil (b : List ℚ) (hb : b ≠ []) : 0 < b.length := by
  cases b with
  | nil => exact absurd rfl hb
  | cons x xs => simp

theorem floorIdx_lt (b : List ℚ) (hb : b ≠ []) (t : ℚ) : floorIdx b t < b.length := by
  have h := (floorGo_bounds b t b.length 0 (b.length - 1) (Nat.zero_le _)).2
  have := length_pos_of_ne_nil b hb
  rw [floorIdx]
  omega

theorem ceilIdx_lt (b : List ℚ) (hb : b ≠ []) (t : ℚ) : ceilIdx b t < b.length := by
  have h := (ceilGo_bounds b t b.length 0 (b.length - 1) (Nat.zero_le _)).2
  have := length_pos_of_ne_nil b hb
  rw [ceilIdx]
  omega

theorem floorBoundary_le (b : List ℚ) (t : ℚ) (h : b.getD 0 0 ≤ t) :
    floorBoundary b t ≤ t :=
  floorGo_val_le b t b.length 0 (b.length - 1) h

theorem le_ceilBoundary (b : List ℚ) (t : ℚ) (h : t ≤ b.getD (b.length - 1) 0) :
    t ≤ ceilBoundary b t :=
  ceilGo_val_ge b t b.length 0 (b.length - 1) (by omega) (Nat.zero_le _) h

theorem getLastD_eq_getD (b : List ℚ) :
    b.getLastD 0 = b.getD (b.length - 1) 0 := by
  rw [List.getLastD_eq_getLast?, List.getLast?_eq_getElem?, List.getD_eq_getElem?_getD]

/-- C6: for every input manifest text, `parseBoundaries` returns a
non-decreasing array that starts with 0, has exactly one more element than the
number of matched `#EXTINF` duration lines, and whose last element is the sum
of all parsed segment durations (malformed or non-finite tokens contributing
zero, which is how `extinfDur` models the source's `isFinite` guard). -/
theorem parseBoundaries_spec (m : String) :
    List.Sorted (· ≤ ·) (parseBoundaries m) ∧
    (parseBoundaries m).head? = some 0 ∧
    (parseBoundaries m).length = 1 + (segDurs m).length ∧
    (parseBoundaries m).getLastD 0 = (segDurs m).sum := by
  refine ⟨parseBoundaries_sorted m, ?_, ?_, parseBoundaries_last m⟩
  · rw [parseBoundaries_eq]
    rfl
  · rw [parseBoundaries_eq]
    simp [cumFrom_length, Nat.add_comm]

/-- C5: for every boundaries array produced by `parseBoundaries` and every `t`
in `[0, total]` (where total is the last boundary), `floorBoundary` is at most
`t`, `ceilBoundary` is at least `t`, and both returned values are elements of
the array. -/
theorem floor_ceil_sandwich (m : String) (t : ℚ)
    (h0 : 0 ≤ t) (hT : t ≤ (parseBoundaries m).getLastD 0) :
    floorBoundary (parseBoundaries m) t ≤ t ∧
    t ≤ ceilBoundary (parseBoundaries m) t ∧
    floorBoundary (parseBoundaries m) t ∈ parseBoundaries m ∧
    ceilBoundary (parseBoundaries m) t ∈ parseBoundaries m := by
  have hb := parseBoundaries_ne_nil m
  refine ⟨?_, ?_, ?_, ?_⟩
  · refine floorBoundary_le _ _ ?_
    rw [parseBoundaries_head m]
    exact h0
  · refine le_ceilBoundary _ _ ?_
    rw [← getLastD_eq_getD]
    exact hT
  · exact getD_mem_of_lt _ _ (floorIdx_lt _ hb t)
  · exact getD_mem_of_lt _ _ (ceilIdx_lt _ hb t)

/-- Witness for C5 on the four-segment manifest at t = 12. -/
theorem floor_ceil_sandwich_witness :
    floorBoundary (parseBoundaries mani4) 12 ≤ 12 ∧
    (12 : ℚ) ≤ ceilBoundary (parseBoundaries mani4) 12 ∧
    floorBoundary (parseBoundaries mani4) 12 ∈ parseBoundaries mani4 ∧
    ceilBoundary (parseBoundaries mani4) 12 ∈ parseBoundaries mani4 :=
  floor_ceil_sandwich mani4 12 (by decide) (by decide)

/-- C10: on every boundaries array produced by `parseBoundaries` (always
non-empty) and every rational `t`, both binary searches are total: their loops
stabilise once given `b.length` fuel (each iteration shrinks the bracket, so
the fuelled loop has already reached its exit condition), every index they
return is in bounds and the returned values are elements of the array; but
outside `[0,total]` the floor/ceil characterisation fails: for `t` below
`b[0]` `floorBoundary` returns `b[0] > t`, and for t above the last boundary
`ceilBoundary` returns the last boundary, which is `< t`. -/
theorem floor_ceil_total_out_of_range (m : String) (t : ℚ) :
    (floorIdx (parseBoundaries m) t < (parseBoundaries m).length ∧
     ceilIdx (parseBoundaries m) t < (parseBoundaries m).length ∧
     floorBoundary (parseBoundaries m) t ∈ parseBoundaries m ∧
     ceilBoundary (parseBoundaries m) t ∈ parseBoundaries m) ∧
    (∀ f, (parseBoundaries m).length ≤ f →
      floorGo (parseBoundaries m) t f 0 ((parseBoundaries m).length - 1)
          = floorIdx (parseBoundaries m) t ∧
      ceilGo (parseBoundaries m) t f 0 ((parseBoundaries m).length - 1)
          = ceilIdx (parseBoundaries m) t) ∧
    (t < (parseBoundaries m).getD 0 0 →
      floorBoundary (parseBoundaries m) t = (parseBoundaries m).getD 0 0 ∧
      t < floorBoundary (parseBoundaries m) t) ∧
    ((parseBoundaries m).getLastD 0 < t →
      ceilBoundary (parseBoundaries m) t = (parseBoundaries m).getLastD 0 ∧
      ceilBoundary (parseBoundaries m) t < t) := by
  have hb := parseBoundaries_ne_nil m
  have hlen := length_pos_of_ne_nil _ hb
  refine ⟨⟨floorIdx_lt _ hb t, ceilIdx_lt _ hb t,
          getD_mem_of_lt _ _ (floorIdx_lt _ hb t),
          getD_mem_of_lt _ _ (ceilIdx_lt _ hb t)⟩, ?_, ?_, ?_⟩
  · intro f hf
    constructor
    · exact (floorGo_fuel (parseBoundaries m) t (parseBoundaries m).length f 0
        ((parseBoundaries m).length - 1) (by omega) hf).symm
    · exact (ceilGo_fuel (parseBoundaries m) t (parseBoundaries m).length f 0
        ((parseBoundaries m).length - 1) (by omega) hf).symm
  · intro hlt
    have hz := parseBoundaries_head m
    have hstays : floorIdx (parseBoundaries m) t = 0 := by
      refine floorGo_stays (parseBoundaries m) t (parseBoundaries m).length 0
        ((parseBoundaries m).length - 1) ?_
      intro j hj0 hjle hle
      have hjlt : j < (parseBoundaries m).length := by omega
      have hmem := getD_mem_of_lt _ j hjlt
      have hnn := parseBoundaries_nonneg m _ hmem
      rw [hz] at hlt
      linarith
    constructor
    · rw [floorBoundary, hstays]
    · rw [floorBoundary, hstays, hz]
      rw [hz] at hlt
      exact hlt
  · intro hlt
    have hsort := parseBoundaries_sorted m
    have hclimbs : ceilIdx (parseBoundaries m) t = (parseBoundaries m).length - 1 := by
      refine ceilGo_climbs (parseBoundaries m) t (parseBoundaries m).length 0
        ((parseBoundaries m).length - 1) (by omega) (Nat.zero_le _) ?_
      intro j hj0 hjlt hle
      have hjl : j < (parseBoundaries m).length := by omega
      have hrel := List.pairwise_iff_getElem.mp hsort j ((parseBoundaries m).length - 1)
        hjl (by omega) (by omega)
      rw [getLastD_eq_getD, getD_eq_getElem_of_lt _ _ (by omega : (parseBoundaries m).length - 1 < (parseBoundaries m).length)] at hlt
      rw [getD_eq_getElem_of_lt _ _ hjl] at hle
      linarith
    constructor
    · rw [ceilBoundary, hclimbs, getLastD_eq_getD]
    · rw [ceilBoundary, hclimbs, ← getLastD_eq_getD]
      exact hlt

/-- Witness for C10: out-of-range ceil behaviour and fuel stabilisation on the
four-segment manifest at t = 100 with fuel 9. -/
theorem floor_ceil_total_out_of_range_witness :
    (ceilBoundary (parseBoundaries mani4) 100 = (parseBoundaries mani4).getLastD 0 ∧
     ceilBoundary (parseBoundaries mani4) 100 < 100) ∧
    floorGo (parseBoundaries mani4) 100 9 0 ((parseBoundaries mani4).length - 1)
        = floorIdx (parseBoundaries mani4) 100 :=
  ⟨(floor_ceil_total_out_of_range mani4 100).2.2.2 (by decide),
   ((floor_ceil_total_out_of_range mani4 100).2.1 9 (by decide)).1⟩

/-- C9: on the manifest with four 10-second segments, `parseBoundaries` yields
`[0,10,20,30,40]` with total 40; request `[12,22]` snaps to `[10,30)` with
duration 20; and request `[5,100]` has its snapped end clamped to 40. -/
theorem four_segment_scenario :
    parseBoundaries mani4 = [0, 10, 20, 30, 40] ∧
    (parseBoundaries mani4).getLastD 0 = 40 ∧
    snapWindow (parseBoundaries mani4) 12 22 = (10, 30) ∧
    jsToFixed3 ((snapWindow (parseBoundaries mani4) 12 22).2
        - (snapWindow (parseBoundaries mani4) 12 22).1) = 20 ∧
    (snapWindow (parseBoundaries mani4) 5 100).2 = 40 := by
  decide

theorem snapWindow_fst (b : List ℚ) (s e : ℚ) :
    (snapWindow b s e).1
      = floorBoundary b (max 0 (min s (max 0 (b.getLastD 0 - 1/1000)))) := rfl

theorem snapWindow_snd (b : List ℚ) (s e : ℚ) :
    (snapWindow b s e).2
      = (if ceilBoundary b (max 0 (min e (b.getLastD 0)))
            ≤ floorBoundary b (max 0 (min s (max 0 (b.getLastD 0 - 1/1000))))
         then snapAdjust b (floorBoundary b (max 0 (min s (max 0 (b.getLastD 0 - 1/1000)))))
         else ceilBoundary b (max 0 (min e (b.getLastD 0)))) := rfl

theorem snapAdjust_gt (b : List ℚ) (x : ℚ) (hsort : List.Sorted (· < ·) b)
    (hmem : x ∈ b) (hlast : x < b.getLastD 0) : x < snapAdjust b x := by
  rw [snapAdjust]
  simp only [if_pos hmem]
  have hidx : b.indexOf x < b.length := List.indexOf_lt_length.mpr hmem
  have hget : b.getD (b.indexOf x) 0 = x := by
    rw [getD_eq_getElem_of_lt _ _ hidx]
    exact List.getElem_indexOf hidx
  have hne : b.indexOf x ≠ b.length - 1 := by
    intro heq
    have hx : x = b.getD (b.length - 1) 0 := by
      rw [← heq, hget]
    rw [getLastD_eq_getD] at hlast
    rw [← hx] at hlast
    exact lt_irrefl x hlast
  have hlen1 : b.indexOf x < b.length - 1 := by omega
  have hminz : min ((b.indexOf x : ℤ) + 1) ((b.length : ℤ) - 1) = (b.indexOf x : ℤ) + 1 := by
    apply min_eq_left
    omega
  rw [hminz]
  have htn : ((b.indexOf x : ℤ) + 1).toNat = b.indexOf x + 1 := by omega
  rw [htn]
  have hlt2 : b.indexOf x + 1 < b.length := by omega
  have hrel := List.pairwise_iff_getElem.mp hsort (b.indexOf x) (b.indexOf x + 1)
    hidx hlt2 (by omega)
  rw [getD_eq_getElem_of_lt _ _ hlt2]
  rw [getD_eq_getElem_of_lt _ _ hidx] at hget
  rw [hget] at hrel
  exact hrel

/-- C1 counterexample: for the empty manifest `parseBoundaries` yields `[0]`
(zero segments), and the /clip snap logic for the finite request `[1,2]` (with
end > start) produces a collapsed window with snapped end equal to snapped
start — not `end > start` as claimed. -/
theorem snapWindow_zero_segments_cex :
    parseBoundaries "" = [0] ∧ (1 : ℚ) < 2 ∧
    ¬ (snapWindow (parseBoundaries "") 1 2).1 < (snapWindow (parseBoundaries "") 1 2).2 := by
  decide

/-- C1 (amended): for every boundaries array produced by `parseBoundaries`
from a manifest with at least one segment whose boundaries are strictly
increasing (every parsed duration positive), and every requested `start < end`,
the snapped window of the /clip handler satisfies snapped end > snapped start —
including when both requested times fall inside a single segment.  With zero
segments (`boundaries = [0]`, see the counterexample) the window collapses
instead. -/
theorem snapWindow_pos_of_strict (m : String) (s e : ℚ)
    (hlen : 2 ≤ (parseBoundaries m).length)
    (hstrict : List.Sorted (· < ·) (parseBoundaries m))
    (hse : s < e) :
    (snapWindow (parseBoundaries m) s e).1 < (snapWindow (parseBoundaries m) s e).2 := by
  have hb := parseBoundaries_ne_nil m
  have hz : (parseBoundaries m).getD 0 0 = 0 := parseBoundaries_head m
  have hnn := parseBoundaries_nonneg m
  rw [snapWindow_fst, snapWindow_snd]
  set B := parseBoundaries m with hB
  set total := B.getLastD 0 with htot
  set sReq := max 0 (min s (max 0 (total - 1/1000))) with hsReq
  set sSnap := floorBoundary B sReq with hsSnap
  have hs0 : (0 : ℚ) ≤ sReq := le_max_left _ _
  have hsnap_le : sSnap ≤ sReq := by
    refine floorBoundary_le B sReq ?_
    rw [hz]
    exact hs0
  have hmem : sSnap ∈ B := getD_mem_of_lt _ _ (floorIdx_lt _ hb _)
  have htotal_pos : 0 < total := by
    have h01 := List.pairwise_iff_getElem.mp hstrict 0 (B.length - 1)
      (by omega) (by omega) (by omega)
    rw [htot, getLastD_eq_getD, getD_eq_getElem_of_lt _ _ (by omega)]
    rw [← getD_eq_getElem_of_lt _ 0 (by omega), hz] at h01
    exact h01
  have hsnap_lt_total : sSnap < total := by
    rcases le_or_lt (1/1000 : ℚ) total with hc | hc
    · have hup : sReq ≤ total - 1/1000 := by
        have h2 : max 0 (total - 1/1000) = total - 1/1000 := max_eq_right (by linarith)
        rw [hsReq]
        apply max_le
        · linarith
        · calc min s (max 0 (total - 1/1000)) ≤ max 0 (total - 1/1000) := min_le_right _ _
            _ = total - 1/1000 := h2
      linarith
    · have hM : max 0 (total - 1/1000) = 0 := max_eq_left (by linarith)
      have hup : sReq ≤ 0 := by
        rw [hsReq, hM]
        exact max_le le_rfl (min_le_right _ _)
      have h0l : sSnap ≤ 0 := le_trans hsnap_le hup
      have h0r : 0 ≤ sSnap := hnn _ hmem
      have h00 : sSnap = 0 := le_antisymm h0l h0r
      rw [h00]
      exact htotal_pos
  by_cases hcase : ceilBoundary B (max 0 (min e total)) ≤ sSnap
  · rw [if_pos hcase]
    exact snapAdjust_gt B sSnap hstrict hmem hsnap_lt_total
  · rw [if_neg hcase]
    exact lt_of_not_ge fun hge => hcase hge

/-- Witness for the amended C1 on a strictly increasing two-segment
manifest with a request inside the first segment. -/
theorem snapWindow_pos_of_strict_witness :
    (snapWindow (parseBoundaries "#EXTINF:10,\n#EXTINF:10,\n") 2 3).1
      < (snapWindow (parseBoundaries "#EXTINF:10,\n#EXTINF:10,\n") 2 3).2 :=
  snapWindow_pos_of_strict "#EXTINF:10,\n#EXTINF:10,\n" 2 3
    (by decide) (by decide) (by decide)

/-- Invariant of the watchdog machine: while the timer is armed no kill has
happened yet, and there is never more than one kill. -/
def wdInv (st : WdState) : Prop :=
  (st.timerArmed = true → st.watchdogKills = 0) ∧ st.watchdogKills ≤ 1

theorem wdStep_inv (st : WdState) (e : WdEv) (h : wdInv st) : wdInv (wdStep st e) := by
  cases e with
  | data => exact ⟨fun hc => (nomatch hc), h.2⟩
  | timer =>
    rw [wdStep]
    split
    · next harm =>
      refine ⟨fun hc => (nomatch hc), ?_⟩
      have h0 := h.1 harm
      cases hd : st.hadData <;> simp [hd, h0]
    · exact h

theorem wdRun_fold_inv (evs : List WdEv) :
    ∀ st : WdState, wdInv st → wdInv (evs.foldl wdStep st) := by
  induction evs with
  | nil => intro st h; exact h
  | cons e evs ih =>
    intro st h
    rw [List.foldl_cons]
    exact ih _ (wdStep_inv st e h)

theorem wd_no_timer_kills (l : List WdEv) :
    ∀ st : WdState, WdEv.timer ∉ l →
      (l.foldl wdStep st).watchdogKills = st.watchdogKills := by
  induction l with
  | nil => intro st _; rfl
  | cons e l ih =>
    intro st hmem
    rw [List.foldl_cons]
    cases e with
    | data => exact ih _ (fun hc => hmem (List.mem_cons_of_mem _ hc))
    | timer => exact absurd (List.mem_cons_self _ _) hmem

theorem wd_stuck (l : List WdEv) (k : ℕ) :
    l.foldl wdStep { hadData := true, timerArmed := false, watchdogKills := k }
      = { hadData := true, timerArmed := false, watchdogKills := k } := by
  induction l with
  | nil => rfl
  | cons e l ih =>
    rw [List.foldl_cons]
    cases e with
    | data => exact ih
    | timer => exact ih

/-- C3: in streamed delivery the watchdog kills ffmpeg at most once over any
event sequence, and a process whose first stdout byte arrives before the timer
deadline is never killed by the watchdog (the data handler sets `hadData` and
clears the single-shot timer, and the timer callback re-checks `hadData`). -/
theorem watchdog_single_shot :
    (∀ evs : List WdEv, (wdRun evs).watchdogKills ≤ 1) ∧
    (∀ l1 l2 : List WdEv, WdEv.timer ∉ l1 →
      (wdRun (l1 ++ WdEv.data :: l2)).watchdogKills = 0) := by
  constructor
  · intro evs
    exact (wdRun_fold_inv evs wd0 ⟨fun _ => rfl, by decide⟩).2
  · intro l1 l2 h
    rw [wdRun, List.foldl_append, List.foldl_cons]
    have hk : (l1.foldl wdStep wd0).watchdogKills = 0 := wd_no_timer_kills l1 wd0 h
    have hdata : wdStep (l1.foldl wdStep wd0) WdEv.data
        = { hadData := true, timerArmed := false, watchdogKills := 0 } := by
      rw [wdStep, hk]
    rw [hdata, wd_stuck]

/-- Witness for C3: a data event before the timer deadline yields zero
watchdog kills. -/
theorem watchdog_single_shot_witness :
    (wdRun [WdEv.data, WdEv.timer]).watchdogKills = 0 :=
  watchdog_single_shot.2 [] [WdEv.timer] (by decide)

/-- C2 counterexample: in the piping-mode session, a client abort ends the job
in the terminal state `canceled`, yet the ffmpeg exit event that follows the
kill (no data, headers unsent) runs `endJob(..., "error")` and moves the job
out of the terminal state. -/
theorem abort_exit_overwrites_canceled_cex :
    (sessRun 10 [SEv.aborted]).job.status = JStatus.canceled ∧
    (sessRun 10 [SEv.aborted, SEv.exited none (some "SIGKILL".data)]).job.status
        = JStatus.error ∧
    JStatus.canceled ≠ JStatus.error := by
  decide

/-- C2 (amended): `patchJob` calls whose patch carries no `status` field (all
progress and transfer updates) never change a job's status, terminal or not;
but `endJob` overwrites the status unconditionally, so the exit handler that
runs after a client-abort set the job to `canceled` changes its status to
`error` (zero output) — terminal states are not preserved. -/
theorem patch_end_status_amended :
    (∀ (cur : Job) (p : JobPatch), p.status = none →
      (patchJob cur p).status = cur.status) ∧
    (∀ (cur : Job) (st : JStatus) (err : List Char), (endJob cur st err).status = st) ∧
    ((sessRun 10 [SEv.aborted]).job.status = JStatus.canceled ∧
     (sessRun 10 [SEv.aborted, SEv.exited none (some "SIGKILL".data)]).job.status
        = JStatus.error) := by
  refine ⟨?_, ?_, by decide⟩
  · intro cur p hp
    simp [patchJob, hp]
  · intro cur st err
    simp [endJob, patchJob]

/-- Witness for the amended C2: a progress-only patch keeps the status. -/
theorem patch_end_status_amended_witness :
    (patchJob job0 { progress := some { pct := some 55 } }).status = job0.status :=
  patch_end_status_amended.1 job0 { progress := some { pct := some 55 } } rfl

/-- C4 counterexample: when ffmpeg exits non-zero in buffered (solid) mode
after having written the scratch file, the exit handler responds 500 without
ever unlinking, so the scratch file persists after the request; and even on a
clean exit with a successful stat, if the read stream's close event never
fires (mid-send abort or error under the plain pipe) no unlink happens either
and the file persists. -/
theorem solid_scratch_persists_cex :
    ((solidExit { codeExit := some 1, signal := none, statOk := false, size := 0,
                  fileWritten := true, readClosed := false } job0 []).unlinkCalled = false ∧
     (solidExit { codeExit := some 1, signal := none, statOk := false, size := 0,
                  fileWritten := true, readClosed := false } job0 []).fileAfter = true ∧
     (solidExit { codeExit := some 1, signal := none, statOk := false, size := 0,
                  fileWritten := true, readClosed := false } job0 []).httpStatus = 500) ∧
    ((solidExit { codeExit := some 0, signal := none, statOk := true, size := 7,
                  fileWritten := true, readClosed := false } job0 []).unlinkCalled = false ∧
     (solidExit { codeExit := some 0, signal := none, statOk := true, size := 7,
                  fileWritten := true, readClosed := false } job0 []).fileAfter = true) := by
  decide

/-- C4 (amended): the buffered-mode scratch file is unlinked only by the read
stream's close handler on the clean-exit path (exit 0, no signal, stat
succeeds): when that close event fires, the file is removed and the job ends
`done` with the 200 response; when it does not fire (mid-send response abort
or error — the plain pipe only unpipes and need not close the read stream),
no unlink happens, the file persists and this handler leaves the job `ready`;
and on every failure path (non-zero exit, signal kill, or stat error) no
unlink is performed and the 500 response ends the job `error` — so cleanup is
guaranteed only when the read stream runs to completion, not on every
outcome. -/
theorem solid_unlink_iff_success (env : SolidEnv) (job : Job) (errLog : List Char) :
    ((solidExit env job errLog).unlinkCalled = true ↔
      (env.codeExit = some 0 ∧ env.signal = none ∧ env.statOk = true ∧
       env.readClosed = true)) ∧
    ((solidExit env job errLog).fileAfter
        = if (solidExit env job errLog).unlinkCalled = true then false
          else env.fileWritten) ∧
    ((env.codeExit = some 0 ∧ env.signal = none ∧ env.statOk = true ∧
        env.readClosed = true) →
      (solidExit env job errLog).job.status = JStatus.done ∧
      (solidExit env job errLog).httpStatus = 200) ∧
    ((env.codeExit = some 0 ∧ env.signal = none ∧ env.statOk = true ∧
        env.readClosed = false) →
      (solidExit env job errLog).job.status = JStatus.ready ∧
      (solidExit env job errLog).httpStatus = 200 ∧
      (solidExit env job errLog).unlinkCalled = false) ∧
    (¬ (env.codeExit = some 0 ∧ env.signal = none ∧ env.statOk = true) →
      (solidExit env job errLog).job.status = JStatus.error ∧
      (solidExit env job errLog).httpStatus = 500 ∧
      (solidExit env job errLog).unlinkCalled = false) := by
  by_cases hc : env.codeExit = some 0 ∧ env.signal = none ∧ env.statOk = true
  · by_cases hr : env.readClosed = true
    · have hout : solidExit env job errLog
          = { job := endJob (patchJob job
                { status := some JStatus.ready
                  transfer := some { totalBytes := some (some env.size) } }) JStatus.done []
              httpStatus := 200
              unlinkCalled := true
              fileAfter := false } := by
        unfold solidExit
        rw [if_pos hc, if_pos hr]
      rw [hout]
      refine ⟨⟨fun _ => ⟨hc.1, hc.2.1, hc.2.2, hr⟩, fun _ => rfl⟩, by simp,
             fun _ => ⟨by simp [endJob, patchJob], rfl⟩,
             fun h4 => (nomatch hr.symm.trans h4.2.2.2),
             fun hn => absurd hc hn⟩
    · have hrf : env.readClosed = false := by
        cases hx : env.readClosed
        · rfl
        · exact absurd hx hr
      have hout : solidExit env job errLog
          = { job := patchJob job
                { status := some JStatus.ready
                  transfer := some { totalBytes := some (some env.size) } }
              httpStatus := 200
              unlinkCalled := false
              fileAfter := env.fileWritten } := by
        unfold solidExit
        rw [if_pos hc, if_neg hr]
      rw [hout]
      refine ⟨⟨fun h => (nomatch h), fun h1 => (nomatch hrf.symm.trans h1.2.2.2)⟩, by simp,
             fun h3 => (nomatch hrf.symm.trans h3.2.2.2),
             fun _ => ⟨by simp [patchJob], rfl, rfl⟩,
             fun hn => absurd hc hn⟩
  · have hout : solidExit env job errLog
        = { job := endJob job JStatus.error
              ((if trimWs errLog = [] then "ffmpeg exited.".data else trimWs errLog).take 1800)
            httpStatus := 500
            unlinkCalled := false
            fileAfter := env.fileWritten } := by
      unfold solidExit
      rw [if_neg hc]
    rw [hout]
    refine ⟨⟨fun h => (nomatch h), fun h1 => absurd ⟨h1.1, h1.2.1, h1.2.2.1⟩ hc⟩, by simp,
           fun h3 => absurd ⟨h3.1, h3.2.1, h3.2.2.1⟩ hc,
           fun h4 => absurd ⟨h4.1, h4.2.1, h4.2.2.1⟩ hc,
           fun _ => ⟨by simp [endJob, patchJob], rfl, rfl⟩⟩

/-- Witness for the amended C4: a fully completed read (close fired) ends the
job done with 200, and the same clean exit without a close leaves the job
ready with no unlink. -/
theorem solid_unlink_iff_success_witness :
    ((solidExit { codeExit := some 0, signal := none, statOk := true, size := 7,
                  fileWritten := true, readClosed := true } job0 []).job.status
        = JStatus.done ∧
     (solidExit { codeExit := some 0, signal := none, statOk := true, size := 7,
                  fileWritten := true, readClosed := true } job0 []).httpStatus = 200) ∧
    ((solidExit { codeExit := some 0, signal := none, statOk := true, size := 7,
                  fileWritten := true, readClosed := false } job0 []).job.status
        = JStatus.ready ∧
     (solidExit { codeExit := some 0, signal := none, statOk := true, size := 7,
                  fileWritten := true, readClosed := false } job0 []).httpStatus = 200 ∧
     (solidExit { codeExit := some 0, signal := none, statOk := true, size := 7,
                  fileWritten := true, readClosed := false } job0 []).unlinkCalled = false) :=
  ⟨(solid_unlink_iff_success
      { codeExit := some 0, signal := none, statOk := true, size := 7,
        fileWritten := true, readClosed := true } job0 []).2.2.1 (by decide),
   (solid_unlink_iff_success
      { codeExit := some 0, signal := none, statOk := true, size := 7,
        fileWritten := true, readClosed := false } job0 []).2.2.2.1 (by decide)⟩

theorem clampPct_nonneg (dur ms : ℚ) : 0 ≤ clampPct dur ms := le_max_left _ _

theorem clampPct_le_99 (dur ms : ℚ) : clampPct dur ms ≤ 99 :=
  max_le (by norm_num) (min_le_left _ _)

theorem jsRound_mono {v w : ℚ} (h : v ≤ w) : jsRound v ≤ jsRound w :=
  Int.floor_le_floor (by linarith)

theorem clampPct_mono (dur : ℚ) (hdur : 0 < dur) {v w : ℚ} (h : v ≤ w) :
    clampPct dur v ≤ clampPct dur w := by
  unfold clampPct
  have h1 : v / (dur * 1000) * 100 ≤ w / (dur * 1000) * 100 := by gcongr
  exact max_le_max le_rfl (min_le_min le_rfl (jsRound_mono h1))

theorem clampPct_zero (dur : ℚ) : clampPct dur 0 = 0 := by
  show max 0 (min 99 (jsRound (0 / (dur * 1000) * 100))) = 0
  rw [zero_div, zero_mul]
  decide

theorem feedLine_ms (dur : ℚ) (job : Job) (line : List Char) (v : ℚ)
    (h : progEvOf line = ProgEv.ms v) :
    (feedLine dur job line).progress = { timeMs := v, pct := clampPct dur v } ∧
    (feedLine dur job line).status = job.status := by
  rw [feedLine, h]
  exact ⟨rfl, rfl⟩

theorem feedLine_endMark (dur : ℚ) (job : Job) (line : List Char)
    (h : progEvOf line = ProgEv.endMark) :
    (feedLine dur job line).progress
        = { timeMs := job.progress.timeMs, pct := 100 } ∧
    (feedLine dur job line).status = job.status := by
  rw [feedLine, h]
  exact ⟨rfl, rfl⟩

theorem feedLine_other (dur : ℚ) (job : Job) (line : List Char)
    (h : progEvOf line = ProgEv.other) :
    feedLine dur job line = job := by
  rw [feedLine, h]

/-- Invariant tying the current progress to the remaining well-formed feed:
either the pct is the clamp of the stored sample and the remaining feed is
well formed from that sample, or the end marker was seen (pct = 100) and no
further sample follows. -/
def pctOk (dur : ℚ) (job : Job) (evs : List ProgEv) : Prop :=
  (job.progress.pct = clampPct dur job.progress.timeMs ∧
    goodFeed job.progress.timeMs evs = true) ∨
  (job.progress.pct = 100 ∧ evs.all (fun e => !e.isMs) = true)

theorem pctOk_step (dur : ℚ) (hdur : 0 < dur) (job : Job) (line : List Char)
    (rest : List ProgEv) (h : pctOk dur job (progEvOf line :: rest)) :
    job.progress.pct ≤ (feedLine dur job line).progress.pct ∧
    pctOk dur (feedLine dur job line) rest := by
  cases hev : progEvOf line with
  | ms v =>
    obtain ⟨hfp, -⟩ := feedLine_ms dur job line v hev
    rcases h with ⟨hp, hg⟩ | ⟨hp, hall⟩
    · rw [hev, goodFeed, Bool.and_eq_true, decide_eq_true_eq] at hg
      constructor
      · rw [hfp, hp]
        exact clampPct_mono dur hdur hg.1
      · left
        rw [hfp]
        exact ⟨rfl, hg.2⟩
    · rw [hev, List.all_cons] at hall
      simp [ProgEv.isMs] at hall
  | endMark =>
    obtain ⟨hfp, -⟩ := feedLine_endMark dur job line hev
    constructor
    · rw [hfp]
      rcases h with ⟨hp, -⟩ | ⟨hp, -⟩
      · rw [hp]
        have := clampPct_le_99 dur job.progress.timeMs
        show clampPct dur job.progress.timeMs ≤ 100
        omega
      · rw [hp]
    · right
      rw [hfp]
      refine ⟨rfl, ?_⟩
      rcases h with ⟨-, hg⟩ | ⟨-, hall⟩
      · rw [hev, goodFeed] at hg
        exact hg
      · rw [hev, List.all_cons, Bool.and_eq_true] at hall
        exact hall.2
  | other =>
    rw [feedLine_other dur job line hev]
    refine ⟨le_refl _, ?_⟩
    rcases h with ⟨hp, hg⟩ | ⟨hp, hall⟩
    · left
      refine ⟨hp, ?_⟩
      rw [hev, goodFeed] at hg
      exact hg
    · right
      refine ⟨hp, ?_⟩
      rw [hev, List.all_cons, Bool.and_eq_true] at hall
      exact hall.2

theorem pctOk_fold (dur : ℚ) (hdur : 0 < dur) :
    ∀ (ls : List (List Char)) (job : Job) (rest : List ProgEv),
      pctOk dur job (ls.map progEvOf ++ rest) →
      job.progress.pct ≤ (ls.foldl (feedLine dur) job).progress.pct ∧
      pctOk dur (ls.foldl (feedLine dur) job) rest := by
  intro ls
  induction ls with
  | nil =>
    intro job rest h
    rw [List.map_nil, List.nil_append] at h
    exact ⟨le_refl _, h⟩
  | cons l ls ih =>
    intro job rest h
    rw [List.map_cons, List.cons_append] at h
    obtain ⟨h1, h2⟩ := pctOk_step dur hdur job l (ls.map progEvOf ++ rest) h
    obtain ⟨h3, h4⟩ := ih (feedLine dur job l) rest h2
    rw [List.foldl_cons]
    exact ⟨le_trans h1 h3, h4⟩

theorem feed_bounds (dur : ℚ) :
    ∀ (ls : List (List Char)) (job : Job),
      0 ≤ job.progress.pct → job.progress.pct ≤ 100 →
      0 ≤ (ls.foldl (feedLine dur) job).progress.pct ∧
      (ls.foldl (feedLine dur) job).progress.pct ≤ 100 := by
  intro ls
  induction ls with
  | nil => intro job h0 h1; exact ⟨h0, h1⟩
  | cons l ls ih =>
    intro job h0 h1
    rw [List.foldl_cons]
    apply ih
    · cases hev : progEvOf l with
      | ms v =>
        rw [(feedLine_ms dur job l v hev).1]
        exact clampPct_nonneg dur v
      | endMark =>
        rw [(feedLine_endMark dur job l hev).1]
        norm_num
      | other =>
        rw [feedLine_other dur job l hev]
        exact h0
    · cases hev : progEvOf l with
      | ms v =>
        rw [(feedLine_ms dur job l v hev).1]
        have := clampPct_le_99 dur v
        show clampPct dur v ≤ 100
        omega
      | endMark =>
        rw [(feedLine_endMark dur job l hev).1]
      | other =>
        rw [feedLine_other dur job l hev]
        exact h1

/-- C7 counterexample: with snapped duration 10, feeding the stderr handler
the line `out_time_ms=10000` sets pct to 99, and a following `out_time_ms=0`
line drops it back to 0 — so over arbitrary line sequences the job's pct is
not monotonically non-decreasing. -/
theorem progress_pct_decrease_cex :
    (List.foldl (feedLine 10) job0 ["out_time_ms=10000".data]).progress.pct = 99 ∧
    (List.foldl (feedLine 10) job0
        ["out_time_ms=10000".data, "out_time_ms=0".data]).progress.pct = 0 := by
  decide

/-- C7 (amended): for jobs with positive snapped duration, pct always stays in
`[0,100]`; each `out_time_ms` line sets pct to the `[0,99]`-clamped rounded
percentage of the snapped duration and stores the sample, and a `progress=end`
line sets pct to 100; pct is monotonically non-decreasing over the job's
lifetime provided the fed `out_time_ms` values are non-decreasing and no
sample follows the end marker (as in ffmpeg's actual progress feed) — for
arbitrary sequences it can decrease (see the counterexample). -/
theorem progress_pct_amended (dur : ℚ) (hdur : 0 < dur) (lines : List (List Char)) :
    (0 ≤ (lines.foldl (feedLine dur) job0).progress.pct ∧
     (lines.foldl (feedLine dur) job0).progress.pct ≤ 100) ∧
    (∀ (job : Job) (line : List Char) (v : ℚ), progEvOf line = ProgEv.ms v →
      (feedLine dur job line).progress.timeMs = v ∧
      (feedLine dur job line).progress.pct = clampPct dur v) ∧
    (∀ (job : Job) (line : List Char), progEvOf line = ProgEv.endMark →
      (feedLine dur job line).progress.pct = 100) ∧
    (goodFeed 0 (lines.map progEvOf) = true →
      ∀ l1 l2 : List (List Char), lines = l1 ++ l2 →
        (l1.foldl (feedLine dur) job0).progress.pct
          ≤ (lines.foldl (feedLine dur) job0).progress.pct) := by
  refine ⟨feed_bounds dur lines job0 (by decide) (by decide), ?_, ?_, ?_⟩
  · intro job line v h
    have hc := feedLine_ms dur job line v h
    exact ⟨by rw [hc.1], by rw [hc.1]⟩
  · intro job line h
    rw [(feedLine_endMark dur job line h).1]
  · intro hg l1 l2 hsplit
    subst hsplit
    have hinit : pctOk dur job0 (l1.map progEvOf ++ l2.map progEvOf) := by
      left
      constructor
      · show (0 : ℤ) = clampPct dur 0
        rw [clampPct_zero]
      · rw [← List.map_append]
        exact hg
    obtain ⟨-, h2⟩ := pctOk_fold dur hdur l1 job0 (l2.map progEvOf) hinit
    have h2' : pctOk dur (l1.foldl (feedLine dur) job0) (l2.map progEvOf ++ []) := by
      rw [List.append_nil]
      exact h2
    obtain ⟨h3, -⟩ := pctOk_fold dur hdur l2 (l1.foldl (feedLine dur) job0) [] h2'
    rw [List.foldl_append]
    exact h3

/-- Witness for the amended C7 on a two-line well-formed feed. -/
theorem progress_pct_amended_witness :
    (0 ≤ (List.foldl (feedLine 10) job0
        ["out_time_ms=5000".data, "progress=end".data]).progress.pct ∧
     (List.foldl (feedLine 10) job0
        ["out_time_ms=5000".data, "progress=end".data]).progress.pct ≤ 100) ∧
    (List.foldl (feedLine 10) job0 ["out_time_ms=5000".data]).progress.pct
      ≤ (List.foldl (feedLine 10) job0
        ["out_time_ms=5000".data, "progress=end".data]).progress.pct :=
  ⟨(progress_pct_amended 10 (by decide)
      ["out_time_ms=5000".data, "progress=end".data]).1,
   (progress_pct_amended 10 (by decide)
      ["out_time_ms=5000".data, "progress=end".data]).2.2.2
     (by decide) ["out_time_ms=5000".data] ["progress=end".data] rfl⟩

/-- C8 counterexample: the final server.js /clip handler has no length cap:
the request `[0, 100000]` (window far above either configured maximum, 600 in
api/clip.js or the 30-second default elsewhere) passes validation, and with a
successful playlist fetch reaches the ffmpeg spawn without any 400. -/
theorem server_no_length_cap_cex :
    srvSpawns (serverClipStage true mani4 ['x'] 0 100000) = true ∧
    srvStatus (serverClipStage true mani4 ['x'] 0 100000) ≠ 400 ∧
    600 < jsToFixed3 ((100000 : ℚ) - 0) := by
  decide

/-- C8 (amended): the api/clip.js handler rejects every request whose window
exceeds `MAX_LEN = 600` with HTTP 400 before spawning ffmpeg; the final
server.js /clip handler, however, has no length cap at all (see the
counterexample) — there an over-long window is merely snapped and clamped to
the playlist total. -/
theorem api_length_cap (code : List Char) (s e : ℚ)
    (h : 600 < jsToFixed3 (e - s)) :
    apiStatus (apiClipStage code s e) = 400 ∧ apiSpawns (apiClipStage code s e) = false := by
  unfold apiClipStage
  by_cases h1 : code = [] ∨ e ≤ s
  · rw [if_pos h1]
    exact ⟨rfl, rfl⟩
  · rw [if_neg h1, if_pos h]
    exact ⟨rfl, rfl⟩

/-- Witness for the amended C8: a 1000-second request is rejected. -/
theorem api_length_cap_witness :
    apiStatus (apiClipStage ['x'] 0 1000) = 400 ∧
    apiSpawns (apiClipStage ['x'] 0 1000) = false :=
  api_length_cap ['x'] 0 1000 (by decide)

end Clipper
